import Mathlib

/-!
Shallow embedding of the Gemini Explorer frontend session logic
(src/frontend/src/components/DeepMode.jsx later revision,
src/frontend/src/components/LiveMode.jsx, src/unnamed/part_000 App.jsx).

Deep mode: one request / streamed-response exchange per invocation of
handleSend; the SSE stream is modelled at the level of parsed data events
(each object parsed from a line of the form data colon payload), since the
chunk splitting and JSON parsing are transport framing.  JavaScript string
truthiness (empty string is falsy) is modelled explicitly by jsTruthyStr.
-/

namespace GeminiExplorer

/-- One content part of a conversation turn, as built by DeepMode.jsx:
a text part, a file reference part, or a thought-signature part. -/
inductive Part where
  | text (s : String)
  | fileUri (uri : String)
  | thoughtSignature (sig : String)
deriving DecidableEq, Repr

/-- One turn of the conversation history kept in the conversationHistory
React state: a role string and an ordered list of parts. -/
structure Turn where
  role : String
  parts : List Part
deriving DecidableEq, Repr

/-- A display-log entry of the messages React state. -/
structure Msg where
  role : String
  content : String
deriving DecidableEq, Repr

/-- A parsed Deep-mode SSE event, i.e. the JSON object carried on one
data line of the streamed response.  The other constructor stands for any
event whose type field matches none of the dispatched branches; the code
has no else branch for it. -/
inductive DeepEvent where
  | text (content : String)
  | thoughtSignature (signature : String)
  | debug (data : String)
  | error (message : String)
  | other (eventType : String)
deriving DecidableEq, Repr

/-- The outbound Deep-mode request payload built in handleSend. -/
structure RequestPayload where
  message : String
  fileUris : List String
  thinkingLevel : String
  mediaResolution : String
  history : List Turn
deriving DecidableEq, Repr

/-- Payload of an inspector record produced by onInspect. -/
inductive InsPayload where
  | req (p : RequestPayload)
  | str (s : String)
deriving DecidableEq, Repr

/-- One inspector record, as appended by addInspectorData in App.jsx. -/
structure Inspection where
  kind : String
  payload : InsPayload
deriving DecidableEq, Repr

/-- JavaScript truthiness of a string: falsy exactly when empty. -/
def jsTruthyStr (s : String) : Bool := s != ""

/-- The setMessages updater run on each text event: if the last display
message is an assistant message its content is replaced by the grown
response, otherwise a new assistant message is pushed. -/
def updateAssistant (msgs : List Msg) (r : String) : List Msg :=
  match msgs.getLast? with
  | some m =>
      if m.role = "assistant" then msgs.dropLast ++ [⟨"assistant", r⟩]
      else msgs ++ [⟨"assistant", r⟩]
  | none => msgs ++ [⟨"assistant", r⟩]

/-- Local state threaded through the stream-reading loop of handleSend:
the growing aiResponse, the captured currentThoughtSignature, and the
display log and inspector records touched by the loop body. -/
structure StreamAcc where
  aiResponse : String
  currentThoughtSignature : Option String
  messages : List Msg
  inspections : List Inspection
deriving DecidableEq, Repr

/-- One iteration of the Deep-mode stream loop body, dispatching on the
type field of the parsed event exactly as the if / else-if chain does.
Events of unmatched type fall through with no effect. -/
def processEvent (acc : StreamAcc) (e : DeepEvent) : StreamAcc :=
  match e with
  | .text c =>
      let r := acc.aiResponse ++ c
      { acc with aiResponse := r, messages := updateAssistant acc.messages r }
  | .thoughtSignature s => { acc with currentThoughtSignature := some s }
  | .debug d => { acc with inspections := acc.inspections ++ [⟨"response", .str d⟩] }
  | .error m =>
      { acc with
        messages := acc.messages ++ [⟨"error", "API Error: " ++ m⟩],
        inspections := acc.inspections ++ [⟨"error", .str m⟩] }
  | .other _ => acc

/-- Component state of DeepMode (the React useState cells relevant to the
session logic, plus the app-level inspector log). -/
structure DeepState where
  message : String
  files : List String
  messages : List Msg
  conversationHistory : List Turn
  loading : Bool
  thinkingLevel : String
  mediaResolution : String
  inspections : List Inspection
deriving DecidableEq, Repr

/-- The request payload handleSend sends: message, file uris, flags and
the full conversation history at send time. -/
def deepRequestOf (s : DeepState) : RequestPayload :=
  ⟨s.message, s.files, s.thinkingLevel, s.mediaResolution, s.conversationHistory⟩

/-- The user-turn parts built by handleSend: one file-uri part per
attached file, in attachment order, then the text part. -/
def userPartsOf (files : List String) (message : String) : List Part :=
  files.map Part.fileUri ++ [Part.text message]

/-- The assistant-turn parts committed by handleSend: the text part when
aiResponse is truthy, then the thought-signature part when the captured
signature is truthy (null or empty string is falsy). -/
def assistantPartsOf (aiResponse : String) (sig : Option String) : List Part :=
  (if jsTruthyStr aiResponse then [Part.text aiResponse] else []) ++
  (match sig with
   | some s => if jsTruthyStr s then [Part.thoughtSignature s] else []
   | none => [])

/-- Outcome of the fetch plus stream-reading phase: either the stream is
consumed to completion with the given parsed events, or an exception is
thrown after the given events were already processed (the catch branch). -/
inductive SendOutcome where
  | ok (events : List DeepEvent)
  | exn (events : List DeepEvent) (errMsg : String)
deriving DecidableEq, Repr

/-- JavaScript String.prototype.trim: strip whitespace from both ends,
modelled on the character list. -/
def jsTrim (s : String) : String :=
  ⟨((s.data.dropWhile Char.isWhitespace).reverse.dropWhile Char.isWhitespace).reverse⟩

/-- The early-return guard of handleSend: return when the trimmed message
is empty and no file is attached.  It does not consult loading. -/
def deepGuard (s : DeepState) : Bool :=
  (jsTrim s.message == "") && s.files.isEmpty

/-- Accumulator at loop entry: empty aiResponse, no signature, the user
display message already pushed and the request already mirrored to the
inspector (both happen before the fetch). -/
def initAcc (s : DeepState) : StreamAcc :=
  { aiResponse := ""
    currentThoughtSignature := none
    messages := s.messages ++ [⟨"user", s.message⟩]
    inspections := s.inspections ++ [⟨"request", .req (deepRequestOf s)⟩] }

/-- handleSend of the later DeepMode.jsx revision.  On completion it
appends the user turn and the model turn to conversationHistory, clears
the message box and keeps the attached files (the setFiles call was
removed).  On a thrown exception the catch branch appends an error
display message and commits nothing to history. -/
def handleSend (s : DeepState) (o : SendOutcome) : DeepState :=
  if deepGuard s then s
  else
    match o with
    | .ok events =>
        let acc := events.foldl processEvent (initAcc s)
        { s with
          messages := acc.messages
          inspections := acc.inspections
          conversationHistory :=
            s.conversationHistory ++
              [⟨"user", userPartsOf s.files s.message⟩,
               ⟨"model", assistantPartsOf acc.aiResponse acc.currentThoughtSignature⟩]
          message := ""
          loading := false }
    | .exn events errMsg =>
        let acc := events.foldl processEvent (initAcc s)
        { s with
          messages := acc.messages ++ [⟨"error", "Error: " ++ errMsg⟩]
          inspections := acc.inspections
          loading := false }

/-- The user-level operations of the DeepMode component that touch the
session state: typing in the textarea, the upload handler appending new
file uris, the Clear All button, the per-item remove button (a filter on
the index), and one handleSend invocation.  Upload also pushes a system
display message; its inspector records are elided as UI detail. -/
inductive DeepOp where
  | typeMessage (t : String)
  | uploadFiles (us : List String)
  | clearFiles
  | removeFile (i : Nat)
  | send (o : SendOutcome)
deriving DecidableEq, Repr

/-- Apply one DeepMode operation to the component state. -/
def applyOp (s : DeepState) : DeepOp → DeepState
  | .typeMessage t => { s with message := t }
  | .uploadFiles us =>
      { s with
        files := s.files ++ us
        messages := s.messages ++ [⟨"system", "Uploaded " ++ toString us.length ++ " file(s)"⟩] }
  | .clearFiles => { s with files := [] }
  | .removeFile i => { s with files := s.files.eraseIdx i }
  | .send o => handleSend s o

/-- Initial DeepMode state: all useState cells at their initial values. -/
def initDeepState : DeepState :=
  { message := ""
    files := []
    messages := []
    conversationHistory := []
    loading := false
    thinkingLevel := "low"
    mediaResolution := "medium"
    inspections := [] }

/-- Run a sequence of DeepMode operations from the initial state. -/
def runOps (ops : List DeepOp) : DeepState := ops.foldl applyOp initDeepState

/-- The send button carries disabled when loading: a click invokes
handleSend only while not loading. -/
def sendButtonInvokes (loading : Bool) : Bool := !loading

/-- The textarea onKeyPress handler: Enter without Shift always invokes
handleSend; it never consults the loading flag. -/
def enterKeyInvokes (key : String) (shiftKey : Bool) (_loading : Bool) : Bool :=
  (key == "Enter") && !shiftKey

/- Conversation History Store contract (the conversationHistory state and
its two functional-update call sites). -/

/-- append of the history store: the functional update spreading the
previous list and adding one turn at the end. -/
def histAppend (h : List Turn) (t : Turn) : List Turn := h ++ [t]

/-- snapshot of the history store: the full ordered list, as read when
building the next request payload. -/
def histSnapshot (h : List Turn) : List Turn := h

/-- A sequence of append calls. -/
def histAppendAll (h : List Turn) (ts : List Turn) : List Turn :=
  ts.foldl histAppend h

/- Live mode (LiveMode.jsx): the ws.onmessage handler and the outbound
duplex message shapes. -/

/-- One part of an inbound Live model turn: a truthy-testable text key,
inline data with a mime type, or a part of any other shape. -/
inductive LivePart where
  | text (s : String)
  | inlineData (mimeType : String) (data : String)
  | otherShape
deriving DecidableEq, Repr

/-- The modelTurn object; its parts key may be absent. -/
structure ModelTurn where
  parts : Option (List LivePart)
deriving DecidableEq, Repr

/-- The serverContent object; its modelTurn key may be absent. -/
structure ServerContent where
  modelTurn : Option ModelTurn
deriving DecidableEq, Repr

/-- The data field of a gemini response event; serverContent may be
absent. -/
structure GeminiData where
  serverContent : Option ServerContent
deriving DecidableEq, Repr

/-- A parsed inbound Live WebSocket event.  The other constructor stands
for events whose type field is neither debug nor the gemini response
tag; the handler has no branch for them. -/
inductive LiveEvent where
  | debug (debugType : String) (data : String)
  | geminiResponse (data : GeminiData)
  | other (eventType : String)
deriving DecidableEq, Repr

/-- Payload of a Live-mode inspector record. -/
inductive LivePayload where
  | str (s : String)
  | resp (d : GeminiData)
deriving DecidableEq, Repr

/-- One Live-mode inspector record produced via onInspect. -/
structure LiveRecord where
  kind : String
  payload : LivePayload
deriving DecidableEq, Repr

/-- The Live-mode component state touched by the onmessage handler. -/
structure LiveState where
  connected : Bool
  messages : List Msg
  records : List LiveRecord
deriving DecidableEq, Repr

/-- The forEach over modelTurn parts: each part with a truthy text key
pushes one assistant display message (inline audio goes to playback, not
to the display log). -/
def textMsgsOfParts (parts : List LivePart) : List Msg :=
  parts.filterMap fun p =>
    match p with
    | .text t => if jsTruthyStr t then some ⟨"assistant", t⟩ else none
    | _ => none

/-- The ws.onmessage handler: debug events are mirrored to the inspector
under their debug type; gemini response events update assistant messages
when serverContent, modelTurn and parts are all present and then mirror
the response data to the inspector unconditionally; events of any other
type fall through with no effect. -/
def liveOnMessage (s : LiveState) (e : LiveEvent) : LiveState :=
  match e with
  | .debug dt d => { s with records := s.records ++ [⟨dt, .str d⟩] }
  | .geminiResponse d =>
      let s1 :=
        match d.serverContent with
        | some content =>
            match content.modelTurn with
            | some mt =>
                match mt.parts with
                | some parts =>
                    { s with messages := s.messages ++ textMsgsOfParts parts }
                | none => s
            | none => s
        | none => s
      { s1 with records := s1.records ++ [⟨"response", .resp d⟩] }
  | .other _ => s

/- Outbound duplex message shapes (sendMessage and the media senders),
modelled as JSON values so key names are part of the statement. -/

/-- A JSON value with object fields in insertion order, as produced by
JSON.stringify of an object literal. -/
inductive Json where
  | str (s : String)
  | bool (b : Bool)
  | arr (xs : List Json)
  | obj (fields : List (String × Json))

/-- Top-level key list of a JSON value. -/
def Json.topKeys : Json → List String
  | .obj fs => fs.map Prod.fst
  | _ => []

/-- The object sendMessage builds and sends for a text turn. -/
def sendMessagePayload (text : String) : Json :=
  .obj [("client_content", .obj
    [("turns", .arr
      [.obj [("role", .str "user"), ("parts", .arr [.obj [("text", .str text)]])]]),
     ("turn_complete", .bool true)])]

/-- The object the audio recorder handler and the video frame sender
build for one forwarded media chunk. -/
def mediaChunkPayload (mimeType data : String) : Json :=
  .obj [("realtime_input", .obj
    [("media_chunks", .arr
      [.obj [("mime_type", .str mimeType), ("data", .str data)]])])]

/-- Modelled from the spec: the text-turn message shape the spec states,
with camelCase key names clientContent and turnComplete. -/
def specClientContentShape (text : String) : Json :=
  .obj [("clientContent", .obj
    [("turns", .arr
      [.obj [("role", .str "user"), ("parts", .arr [.obj [("text", .str text)]])]]),
     ("turnComplete", .bool true)])]

/-- Modelled from the spec: the media message shape the spec states,
with camelCase key names realtimeInput, mediaChunks and mimeType. -/
def specRealtimeInputShape (mimeType data : String) : Json :=
  .obj [("realtimeInput", .obj
    [("mediaChunks", .arr
      [.obj [("mimeType", .str mimeType), ("data", .str data)]])])]

/-- The text-turn message shape with the key names the code actually
writes: client_content and turn_complete, same nesting as the spec. -/
def snakeClientContentShape (text : String) : Json :=
  .obj [("client_content", .obj
    [("turns", .arr
      [.obj [("role", .str "user"), ("parts", .arr [.obj [("text", .str text)]])]]),
     ("turn_complete", .bool true)])]

/-- The media message shape with the key names the code actually writes:
realtime_input, media_chunks and mime_type, same nesting as the spec. -/
def snakeRealtimeInputShape (mimeType data : String) : Json :=
  .obj [("realtime_input", .obj
    [("media_chunks", .arr
      [.obj [("mime_type", .str mimeType), ("data", .str data)]])])]

/- Media codec decode side (playAudioChunk, lines after the base64
decode): the bytes are viewed as little-endian 16-bit signed samples and
divided by 32768 into normalized samples. -/

/-- The signed 16-bit value of two consecutive bytes in little-endian
order, as read by the Int16Array view. -/
def int16OfLE (b0 b1 : Nat) : Int :=
  let v := b0 + 256 * b1
  if v < 32768 then (v : Int) else (v : Int) - 65536

/-- Split a byte list into consecutive little-endian byte pairs. -/
def pcm16Pairs : List Nat → List (Nat × Nat)
  | b0 :: b1 :: rest => (b0, b1) :: pcm16Pairs rest
  | _ => []

/-- Decode 16-bit linear PCM bytes (after the base64 decode) into
normalized rational samples, each int16 sample divided by 32768. -/
def decodePCM16 (bytes : List Nat) : List ℚ :=
  (pcm16Pairs bytes).map fun p => (int16OfLE p.1 p.2 : ℚ) / 32768

/- Auxiliary definitions used to state the theorems. -/

/-- Concatenation of a list of strings, in order. -/
def concatAll : List String → String
  | [] => ""
  | c :: cs => c ++ concatAll cs

/-- The aiResponse accumulated by the stream loop over a list of events,
starting from r: text contents are appended in order, other events leave
it unchanged. -/
def textFold (r : String) : List DeepEvent → String
  | [] => r
  | e :: evs =>
      match e with
      | .text c => textFold (r ++ c) evs
      | _ => textFold r evs

/-- The currentThoughtSignature after the stream loop over a list of
events, starting from sig: each thought-signature event overwrites it. -/
def sigFold (sig : Option String) : List DeepEvent → Option String
  | [] => sig
  | e :: evs =>
      match e with
      | .thoughtSignature s => sigFold (some s) evs
      | _ => sigFold sig evs

/-- A turn list consists of consecutive pairs of a user turn followed by
a model turn. -/
def alternatesUM : List Turn → Bool
  | [] => true
  | [_] => false
  | u :: m :: rest => (u.role == "user") && (m.role == "model") && alternatesUM rest

/-- Concrete DeepMode state: the user typed hi, nothing else happened. -/
def sHi : DeepState := { initDeepState with message := "hi" }

/-- Concrete connected Live state with empty logs. -/
def lsConn : LiveState := { connected := true, messages := [], records := [] }

/-- Concrete DeepMode state with two attached files and message hi. -/
def sFiles : DeepState := { initDeepState with message := "hi", files := ["u1", "u2"] }

/-- True exactly for the operations that act on the attached-file list:
upload, Clear All, and per-item removal. -/
def isFileListOp : DeepOp → Bool
  | .uploadFiles _ => true
  | .clearFiles => true
  | .removeFile _ => true
  | _ => false

/- Lemmas characterising the stream loop. -/

theorem processEvent_aiResponse (evs : List DeepEvent) :
    ∀ acc : StreamAcc,
      (evs.foldl processEvent acc).aiResponse = textFold acc.aiResponse evs := by
  induction evs with
  | nil => intro acc; rfl
  | cons e evs ih =>
      intro acc
      cases e <;> simp [processEvent, textFold, ih]

theorem processEvent_sig (evs : List DeepEvent) :
    ∀ acc : StreamAcc,
      (evs.foldl processEvent acc).currentThoughtSignature
        = sigFold acc.currentThoughtSignature evs := by
  induction evs with
  | nil => intro acc; rfl
  | cons e evs ih =>
      intro acc
      cases e <;> simp [processEvent, sigFold, ih]

theorem textFold_map_text (cs : List String) :
    ∀ r : String, textFold r (cs.map DeepEvent.text) = r ++ concatAll cs := by
  induction cs with
  | nil => intro r; simp [textFold, concatAll]
  | cons c cs ih =>
      intro r
      simp [textFold, concatAll, ih, String.append_assoc]

theorem sigFold_map_text (cs : List String) :
    ∀ sig : Option String, sigFold sig (cs.map DeepEvent.text) = sig := by
  induction cs with
  | nil => intro sig; rfl
  | cons c cs ih => intro sig; simp [sigFold, ih]

theorem textFold_append (a b : List DeepEvent) :
    ∀ r : String, textFold r (a ++ b) = textFold (textFold r a) b := by
  induction a with
  | nil => intro r; rfl
  | cons e a ih =>
      intro r
      cases e <;> simp [textFold, ih]

theorem sigFold_append (a b : List DeepEvent) :
    ∀ sig : Option String, sigFold sig (a ++ b) = sigFold (sigFold sig a) b := by
  induction a with
  | nil => intro sig; rfl
  | cons e a ih =>
      intro sig
      cases e <;> simp [sigFold, ih]

/-- The conversation history after a completed handleSend: the old
history, then the user turn, then the model turn assembled from the
concatenated text and the last captured signature. -/
theorem handleSend_ok_history (s : DeepState) (evs : List DeepEvent)
    (h : deepGuard s = false) :
    (handleSend s (.ok evs)).conversationHistory =
      s.conversationHistory ++
        [⟨"user", userPartsOf s.files s.message⟩,
         ⟨"model", assistantPartsOf (textFold "" evs) (sigFold none evs)⟩] := by
  simp [handleSend, h, processEvent_aiResponse, processEvent_sig, initAcc]

theorem handleSend_files (s : DeepState) (o : SendOutcome) :
    (handleSend s o).files = s.files := by
  cases o <;> by_cases h : deepGuard s <;> simp [handleSend, h]

theorem handleSend_exn_history (s : DeepState) (evs : List DeepEvent) (em : String) :
    (handleSend s (.exn evs em)).conversationHistory = s.conversationHistory := by
  by_cases h : deepGuard s <;> simp [handleSend, h]

/- Membership lemmas: inspector records and error display messages, once
produced, survive the rest of the stream loop. -/

theorem mem_inspections_foldl (x : Inspection) (evs : List DeepEvent) :
    ∀ acc : StreamAcc, x ∈ acc.inspections →
      x ∈ (evs.foldl processEvent acc).inspections := by
  induction evs with
  | nil => intro acc hx; exact hx
  | cons e evs ih =>
      intro acc hx
      refine ih _ ?_
      cases e <;> simp [processEvent] <;> first | exact hx | exact Or.inl hx

theorem error_event_mem_inspections (m : String) (evs : List DeepEvent) :
    ∀ acc : StreamAcc, DeepEvent.error m ∈ evs →
      (⟨"error", .str m⟩ : Inspection) ∈ (evs.foldl processEvent acc).inspections := by
  induction evs with
  | nil => intro acc h; simp at h
  | cons e evs ih =>
      intro acc h
      rcases List.mem_cons.mp h with he | he
      · subst he
        exact mem_inspections_foldl _ evs _ (by simp [processEvent])
      · exact ih _ he

theorem mem_updateAssistant (x : Msg) (hx : x.role ≠ "assistant")
    (msgs : List Msg) (r : String) (hm : x ∈ msgs) :
    x ∈ updateAssistant msgs r := by
  unfold updateAssistant
  cases hgl : msgs.getLast? with
  | none => exact List.mem_append_left _ hm
  | some m =>
      by_cases hr : m.role = "assistant"
      · simp only [hr, if_true]
        have hsplit : msgs.dropLast ++ [m] = msgs :=
          List.dropLast_append_getLast? m hgl
        rw [← hsplit] at hm
        rcases List.mem_append.mp hm with hd | hl
        · exact List.mem_append_left _ hd
        · exfalso
          have : x = m := by simpa using hl
          exact hx (this ▸ hr)
      · simp only [hr, if_false]
        exact List.mem_append_left _ hm

theorem mem_messages_foldl (x : Msg) (hx : x.role ≠ "assistant") (evs : List DeepEvent) :
    ∀ acc : StreamAcc, x ∈ acc.messages →
      x ∈ (evs.foldl processEvent acc).messages := by
  induction evs with
  | nil => intro acc hm; exact hm
  | cons e evs ih =>
      intro acc hm
      refine ih _ ?_
      cases e with
      | text c => exact mem_updateAssistant x hx _ _ hm
      | error m => exact List.mem_append_left _ hm
      | thoughtSignature s => exact hm
      | debug d => exact hm
      | other t => exact hm

theorem error_event_mem_messages (m : String) (evs : List DeepEvent) :
    ∀ acc : StreamAcc, DeepEvent.error m ∈ evs →
      (⟨"error", "API Error: " ++ m⟩ : Msg) ∈ (evs.foldl processEvent acc).messages := by
  induction evs with
  | nil => intro acc h; simp at h
  | cons e evs ih =>
      intro acc h
      rcases List.mem_cons.mp h with he | he
      · subst he
        exact mem_messages_foldl _ (by simp) evs _ (by simp [processEvent])
      · exact ih _ he

/- Alternation of the committed history. -/

theorem alternatesUM_append_pair :
    ∀ (h : List Turn) (pu pm : List Part), alternatesUM h = true →
      alternatesUM (h ++ [⟨"user", pu⟩, ⟨"model", pm⟩]) = true
  | [], pu, pm, _ => by simp [alternatesUM]
  | [_], _, _, hh => by simp [alternatesUM] at hh
  | u :: m :: rest, pu, pm, hh => by
      simp only [alternatesUM, Bool.and_eq_true] at hh
      simp only [List.cons_append, alternatesUM, Bool.and_eq_true]
      exact ⟨hh.1, alternatesUM_append_pair rest pu pm hh.2⟩

theorem alternatesUM_even :
    ∀ h : List Turn, alternatesUM h = true → h.length % 2 = 0
  | [], _ => rfl
  | [_], hh => by simp [alternatesUM] at hh
  | _ :: _ :: rest, hh => by
      simp only [alternatesUM, Bool.and_eq_true] at hh
      have := alternatesUM_even rest hh.2
      simp only [List.length_cons]
      omega

theorem alternatesUM_foldl_ops (ops : List DeepOp) :
    ∀ s : DeepState, alternatesUM s.conversationHistory = true →
      alternatesUM ((ops.foldl applyOp s).conversationHistory) = true := by
  induction ops with
  | nil => intro s hs; exact hs
  | cons op ops ih =>
      intro s hs
      rw [List.foldl_cons]
      refine ih _ ?_
      cases op with
      | typeMessage t => exact hs
      | uploadFiles us => exact hs
      | clearFiles => exact hs
      | removeFile i => exact hs
      | send o =>
          cases o with
          | ok evs =>
              cases hg : deepGuard s with
              | true => simpa [applyOp, handleSend, hg] using hs
              | false =>
                  have hh := handleSend_ok_history s evs hg
                  show alternatesUM (handleSend s (.ok evs)).conversationHistory = true
                  rw [hh]
                  exact alternatesUM_append_pair _ _ _ hs
          | exn evs em =>
              show alternatesUM (handleSend s (.exn evs em)).conversationHistory = true
              rw [handleSend_exn_history]
              exact hs

theorem histAppendAll_eq (ts : List Turn) :
    ∀ h : List Turn, histAppendAll h ts = h ++ ts := by
  induction ts with
  | nil => intro h; simp [histAppendAll]
  | cons t ts ih =>
      intro h
      show List.foldl histAppend (histAppend h t) ts = _
      rw [show List.foldl histAppend (histAppend h t) ts = histAppendAll (h ++ [t]) ts from rfl,
        ih]
      simp

/- Claim theorems. -/

/-- C8: for all sequences of append calls on the history store, snapshot
returns exactly the appended turns, in call order, unmodified (every
previously appended turn survives as a prefix); moreover every
handleSend invocation only ever extends the conversation history. -/
theorem history_append_only_snapshot_order :
    (∀ (h ts : List Turn), histSnapshot (histAppendAll h ts) = h ++ ts) ∧
    (∀ (s : DeepState) (o : SendOutcome), ∃ ts,
      (handleSend s o).conversationHistory = s.conversationHistory ++ ts) := by
  constructor
  · intro h ts
    exact histAppendAll_eq ts h
  · intro s o
    cases o with
    | ok evs =>
        cases hg : deepGuard s with
        | true => exact ⟨[], by simp [handleSend, hg]⟩
        | false => exact ⟨_, handleSend_ok_history s evs hg⟩
    | exn evs em => exact ⟨[], by simp [handleSend_exn_history]⟩

/-- C10: a completed, non-throwing handleSend whose guard lets the send
proceed appends exactly a user turn followed by a model turn; with an empty
event stream the model turn has an empty parts list; and the history
reached by any sequence of DeepMode operations from the initial state is
an alternation of user and model turns of even length. -/
theorem completed_send_two_turns_alternation
    (s : DeepState) (evs : List DeepEvent) (ops : List DeepOp)
    (h : deepGuard s = false) :
    ((handleSend s (.ok evs)).conversationHistory =
        s.conversationHistory ++
          [⟨"user", userPartsOf s.files s.message⟩,
           ⟨"model", assistantPartsOf (textFold "" evs) (sigFold none evs)⟩]) ∧
    ((handleSend s (.ok [])).conversationHistory =
        s.conversationHistory ++
          [⟨"user", userPartsOf s.files s.message⟩, ⟨"model", []⟩]) ∧
    (alternatesUM (runOps ops).conversationHistory = true) ∧
    ((runOps ops).conversationHistory.length % 2 = 0) := by
  have hinv : alternatesUM (runOps ops).conversationHistory = true :=
    alternatesUM_foldl_ops ops initDeepState rfl
  refine ⟨handleSend_ok_history s evs h, ?_, hinv, alternatesUM_even _ hinv⟩
  have := handleSend_ok_history s [] h
  simpa [textFold, sigFold, assistantPartsOf, jsTruthyStr] using this

/-- Witness for C10 at a concrete state: the send of hi with an empty
response stream commits the user turn and a model turn with empty parts,
and a concrete operation run keeps the alternation invariant. -/
theorem completed_send_two_turns_witness :
    deepGuard sHi = false ∧
    (handleSend sHi (.ok [])).conversationHistory =
      [⟨"user", [Part.text "hi"]⟩, ⟨"model", []⟩] ∧
    alternatesUM (runOps [.typeMessage "hi", .send (.ok [.text "Hello"])]).conversationHistory
      = true := by
  have hg : deepGuard sHi = false := by decide
  have h := completed_send_two_turns_alternation sHi []
    [.typeMessage "hi", .send (.ok [.text "Hello"])] hg
  refine ⟨hg, ?_, h.2.2.1⟩
  simpa [sHi, initDeepState, userPartsOf] using h.2.1

/-- C1 counterexample: with message hi and a response stream whose one
text event carries the empty content, the committed model turn has no
text part at all, not a text part holding the empty concatenation. -/
theorem empty_text_event_commits_no_text_part :
    (handleSend sHi (.ok [DeepEvent.text ""])).conversationHistory =
      [⟨"user", [Part.text "hi"]⟩, ⟨"model", []⟩] ∧
    (handleSend sHi (.ok [DeepEvent.text ""])).conversationHistory ≠
      [⟨"user", [Part.text "hi"]⟩, ⟨"model", [Part.text ""]⟩] := by
  constructor <;> decide

/-- C1 (amended): a completed send whose stream consists of text events
with contents cs grows the history by exactly the user turn (file parts
in attachment order, then the text part) and a model turn whose sole
text part is the concatenation of cs when that concatenation is
nonempty; an empty concatenation yields a model turn with no parts. -/
theorem deep_send_commits_user_then_concat_model
    (s : DeepState) (cs : List String) (h : deepGuard s = false) :
    (handleSend s (.ok (cs.map DeepEvent.text))).conversationHistory =
      s.conversationHistory ++
        [⟨"user", s.files.map Part.fileUri ++ [Part.text s.message]⟩,
         ⟨"model", if concatAll cs = "" then [] else [Part.text (concatAll cs)]⟩] := by
  rw [handleSend_ok_history s _ h]
  rw [show textFold "" (cs.map DeepEvent.text) = "" ++ concatAll cs from
        textFold_map_text cs "",
      show sigFold none (cs.map DeepEvent.text) = none from sigFold_map_text cs none]
  by_cases hc : concatAll cs = "" <;>
    simp [assistantPartsOf, jsTruthyStr, userPartsOf, hc]

/-- C1 witness: the scenario of the spec: message hi, no files, one
streamed chunk Hello, ending history user hi then model Hello. -/
theorem deep_send_hi_hello_scenario :
    deepGuard sHi = false ∧
    (handleSend sHi (.ok [DeepEvent.text "Hello"])).conversationHistory =
      [⟨"user", [Part.text "hi"]⟩, ⟨"model", [Part.text "Hello"]⟩] := by
  have hg : deepGuard sHi = false := by decide
  exact ⟨hg,
    (deep_send_commits_user_then_concat_model sHi ["Hello"] hg).trans (by decide)⟩

/-- C2: evaluation at the failing input.  While an exchange is in flight
the send button is disabled, but Enter without Shift in the textarea
still invokes handleSend, whose guard never consults loading: the
concurrent send proceeds and appends two turns to the history instead of
being rejected, and no rejection error value exists in the code. -/
theorem enter_during_inflight_send_proceeds :
    enterKeyInvokes "Enter" false true = true ∧
    sendButtonInvokes true = false ∧
    (handleSend { sHi with loading := true }
        (.ok [DeepEvent.text "Hello"])).conversationHistory =
      [⟨"user", [Part.text "hi"]⟩, ⟨"model", [Part.text "Hello"]⟩] := by
  refine ⟨by decide, by decide, by decide⟩

/-- C3 counterexample: an error event does not terminate the exchange:
after a stream consisting of one error event, both the user turn and an
empty-parts model turn are still committed to the history. -/
theorem error_event_still_commits_turns :
    (handleSend sHi (.ok [DeepEvent.error "boom"])).conversationHistory =
      [⟨"user", [Part.text "hi"]⟩, ⟨"model", []⟩] ∧
    (handleSend sHi (.ok [DeepEvent.error "boom"])).conversationHistory ≠ [] := by
  constructor <;> decide

/-- C3 (amended): an error event is surfaced (an error inspector record
and an error display message are emitted and survive the exchange) but
the exchange continues; on stream end both turns are committed together,
while a send that throws commits neither turn. -/
theorem error_surfaced_and_both_turns_or_neither
    (s : DeepState) (evs : List DeepEvent) (m : String)
    (hg : deepGuard s = false) (hm : DeepEvent.error m ∈ evs) :
    ((⟨"error", .str m⟩ : Inspection) ∈ (handleSend s (.ok evs)).inspections) ∧
    ((⟨"error", "API Error: " ++ m⟩ : Msg) ∈ (handleSend s (.ok evs)).messages) ∧
    ((handleSend s (.ok evs)).conversationHistory =
      s.conversationHistory ++
        [⟨"user", userPartsOf s.files s.message⟩,
         ⟨"model", assistantPartsOf (textFold "" evs) (sigFold none evs)⟩]) ∧
    (∀ (evs2 : List DeepEvent) (em : String),
      (handleSend s (.exn evs2 em)).conversationHistory = s.conversationHistory) := by
  refine ⟨?_, ?_, handleSend_ok_history s evs hg,
    fun evs2 em => handleSend_exn_history s evs2 em⟩
  · have hi : (handleSend s (.ok evs)).inspections =
        (evs.foldl processEvent (initAcc s)).inspections := by
      simp [handleSend, hg]
    rw [hi]
    exact error_event_mem_inspections m evs _ hm
  · have hmsg : (handleSend s (.ok evs)).messages =
        (evs.foldl processEvent (initAcc s)).messages := by
      simp [handleSend, hg]
    rw [hmsg]
    exact error_event_mem_messages m evs _ hm

/-- C3 witness at a concrete exchange: the error record is present and a
thrown send leaves the history empty. -/
theorem error_surfaced_witness :
    deepGuard sHi = false ∧
    DeepEvent.error "boom" ∈ [DeepEvent.error "boom"] ∧
    (⟨"error", InsPayload.str "boom"⟩ : Inspection) ∈
      (handleSend sHi (.ok [DeepEvent.error "boom"])).inspections ∧
    (handleSend sHi (.exn [] "network down")).conversationHistory = [] := by
  have hg : deepGuard sHi = false := by decide
  have h := error_surfaced_and_both_turns_or_neither sHi
    [DeepEvent.error "boom"] "boom" hg (by decide)
  exact ⟨hg, by decide, h.1, h.2.2.2 [] "network down"⟩

/-- C4 counterexample: a thought-signature event whose token bytes are
empty is not stored: the committed assistant turn carries no
thought-signature part at all. -/
theorem empty_signature_dropped :
    (handleSend sHi
        (.ok [DeepEvent.text "Hello", DeepEvent.thoughtSignature ""])).conversationHistory =
      [⟨"user", [Part.text "hi"]⟩, ⟨"model", [Part.text "Hello"]⟩] ∧
    (handleSend sHi
        (.ok [DeepEvent.text "Hello", DeepEvent.thoughtSignature ""])).conversationHistory ≠
      [⟨"user", [Part.text "hi"]⟩,
       ⟨"model", [Part.text "Hello", Part.thoughtSignature ""]⟩] := by
  constructor <;> decide

/-- C4 (amended): a stream of text events followed by one
thought-signature event carrying nonempty token bytes commits the token
verbatim as the final part of the assistant turn, after the text part
when the concatenated text is nonempty, and the history field of the
next outbound request replays the committed history verbatim. -/
theorem signature_stored_after_text_and_replayed
    (s : DeepState) (cs : List String) (sig : String)
    (hg : deepGuard s = false) (hs : sig ≠ "") :
    ((handleSend s
        (.ok (cs.map DeepEvent.text ++ [DeepEvent.thoughtSignature sig]))).conversationHistory =
      s.conversationHistory ++
        [⟨"user", userPartsOf s.files s.message⟩,
         ⟨"model", (if concatAll cs = "" then [] else [Part.text (concatAll cs)]) ++
            [Part.thoughtSignature sig]⟩]) ∧
    ((deepRequestOf (handleSend s
        (.ok (cs.map DeepEvent.text ++ [DeepEvent.thoughtSignature sig])))).history =
      (handleSend s
        (.ok (cs.map DeepEvent.text ++ [DeepEvent.thoughtSignature sig]))).conversationHistory) := by
  refine ⟨?_, rfl⟩
  rw [handleSend_ok_history s _ hg, textFold_append, sigFold_append,
    textFold_map_text, sigFold_map_text]
  by_cases hc : concatAll cs = "" <;>
    simp [textFold, sigFold, assistantPartsOf, jsTruthyStr, hc, hs]

/-- C4 witness: text Hello then signature SIG commits the assistant turn
with the text part followed by the signature part. -/
theorem signature_stored_witness :
    deepGuard sHi = false ∧ "SIG" ≠ "" ∧
    (handleSend sHi
        (.ok [DeepEvent.text "Hello", DeepEvent.thoughtSignature "SIG"])).conversationHistory =
      [⟨"user", [Part.text "hi"]⟩,
       ⟨"model", [Part.text "Hello", Part.thoughtSignature "SIG"]⟩] := by
  have hg : deepGuard sHi = false := by decide
  have h := signature_stored_after_text_and_replayed sHi ["Hello"] "SIG" hg (by decide)
  exact ⟨hg, by decide, h.1.trans (by decide)⟩

/-- C5: attached file references persist across turns: a send never
changes the file list; the exposed Clear All operation empties it;
per-item removal erases exactly the chosen index; and no operation
outside the explicit file-list operations changes the list. -/
theorem files_persist_across_sends_and_explicit_clear
    (s : DeepState) (o : SendOutcome) (i : Nat) :
    ((applyOp s (.send o)).files = s.files) ∧
    ((applyOp s .clearFiles).files = []) ∧
    ((applyOp s (.removeFile i)).files = s.files.eraseIdx i) ∧
    (∀ op : DeepOp, isFileListOp op = false → (applyOp s op).files = s.files) := by
  refine ⟨handleSend_files s o, rfl, rfl, ?_⟩
  intro op hop
  cases op with
  | typeMessage t => rfl
  | uploadFiles us => simp [isFileListOp] at hop
  | clearFiles => simp [isFileListOp] at hop
  | removeFile j => simp [isFileListOp] at hop
  | send o2 => exact handleSend_files s o2

/-- C5 witness at a state with two attached files: a completed send and
typing both keep the list; Clear All empties it; removal drops one. -/
theorem files_persist_witness :
    isFileListOp (.typeMessage "more") = false ∧
    (applyOp sFiles (.send (.ok [DeepEvent.text "Hello"]))).files = ["u1", "u2"] ∧
    (applyOp sFiles .clearFiles).files = [] ∧
    (applyOp sFiles (.removeFile 0)).files = ["u2"] ∧
    (applyOp sFiles (.typeMessage "more")).files = ["u1", "u2"] := by
  have h := files_persist_across_sends_and_explicit_clear sFiles
    (.ok [DeepEvent.text "Hello"]) 0
  exact ⟨by decide, h.1, h.2.1, h.2.2.1.trans (by decide),
    (h.2.2.2 (.typeMessage "more") (by decide))⟩

/-- C6 counterexample: an inbound event of unrecognized shape is not
passed to the inspection tap: the handler leaves the state unchanged, so
it produces zero inspection records, not exactly one. -/
theorem unrecognized_live_event_produces_no_record :
    liveOnMessage lsConn (.other "extension_event") = lsConn ∧
    (liveOnMessage lsConn (.other "extension_event")).records.length = 0 :=
  ⟨rfl, rfl⟩

/-- C6 (amended): each recognized inbound Live event (debug or gemini
response) produces exactly one inspection record; a gemini response
whose data has no serverContent key produces zero assistant-message
updates while still yielding one record; an event of unrecognized shape
is ignored entirely (no record, no message update) and is never fatal:
the handler returns the state unchanged. -/
theorem live_inspection_per_recognized_event
    (ls : LiveState) (d : GeminiData) (dt dd et : String)
    (h : d.serverContent = none) :
    (∀ d2 : GeminiData, (liveOnMessage ls (.geminiResponse d2)).records =
        ls.records ++ [⟨"response", .resp d2⟩]) ∧
    ((liveOnMessage ls (.geminiResponse d)).messages = ls.messages) ∧
    ((liveOnMessage ls (.debug dt dd)).records = ls.records ++ [⟨dt, .str dd⟩]) ∧
    ((liveOnMessage ls (.debug dt dd)).messages = ls.messages) ∧
    (liveOnMessage ls (.other et) = ls) := by
  refine ⟨?_, by simp [liveOnMessage, h], rfl, rfl, rfl⟩
  intro d2
  cases hd : d2.serverContent with
  | none => simp [liveOnMessage, hd]
  | some content =>
      cases hmt : content.modelTurn with
      | none => simp [liveOnMessage, hd, hmt]
      | some mt =>
          cases hp : mt.parts with
          | none => simp [liveOnMessage, hd, hmt, hp]
          | some parts => simp [liveOnMessage, hd, hmt, hp]

/-- C6 witness: a gemini response with no serverContent yields one record
and no message update; a debug event yields one record. -/
theorem live_inspection_witness :
    (GeminiData.mk none).serverContent = none ∧
    (liveOnMessage lsConn (.geminiResponse ⟨none⟩)).records =
      [⟨"response", .resp ⟨none⟩⟩] ∧
    (liveOnMessage lsConn (.geminiResponse ⟨none⟩)).messages = [] ∧
    (liveOnMessage lsConn (.debug "setup" "ok")).records = [⟨"setup", .str "ok"⟩] := by
  have h := live_inspection_per_recognized_event lsConn ⟨none⟩ "setup" "ok" "x" rfl
  exact ⟨rfl, h.1 ⟨none⟩, h.2.1, h.2.2.1⟩

/-- C7 counterexample: the outbound duplex messages do not use the
camelCase key names the claim states: the text-turn object and the media
object built by the code differ from those shapes already at the
top-level key. -/
theorem outbound_keys_not_camel_case :
    sendMessagePayload "hi" ≠ specClientContentShape "hi" ∧
    mediaChunkPayload "audio/pcm" "QUJD" ≠ specRealtimeInputShape "audio/pcm" "QUJD" := by
  constructor
  · intro h
    have hk := congrArg Json.topKeys h
    simp [sendMessagePayload, specClientContentShape, Json.topKeys] at hk
  · intro h
    have hk := congrArg Json.topKeys h
    simp [mediaChunkPayload, specRealtimeInputShape, Json.topKeys] at hk

/-- C7 (amended): the outbound duplex messages have exactly the nesting
the claim states but with snake-case key names: client_content with
turns, role, parts, text and turn_complete for text turns, and
realtime_input with media_chunks, mime_type and data for media chunks. -/
theorem outbound_messages_snake_case_shape (t mimeType data : String) :
    sendMessagePayload t = snakeClientContentShape t ∧
    mediaChunkPayload mimeType data = snakeRealtimeInputShape mimeType data :=
  ⟨rfl, rfl⟩

/- PCM decode lemmas. -/

theorem pcm16Pairs_length :
    ∀ bytes : List Nat, (pcm16Pairs bytes).length = bytes.length / 2
  | [] => rfl
  | [_] => by simp [pcm16Pairs]
  | _ :: _ :: rest => by
      simp only [pcm16Pairs, List.length_cons, pcm16Pairs_length rest]
      omega

theorem pcm16Pairs_mem :
    ∀ (bytes : List Nat) (p : Nat × Nat), p ∈ pcm16Pairs bytes →
      p.1 ∈ bytes ∧ p.2 ∈ bytes
  | [], p, hp => by simp [pcm16Pairs] at hp
  | [_], p, hp => by simp [pcm16Pairs] at hp
  | b0 :: b1 :: rest, p, hp => by
      rcases List.mem_cons.mp hp with rfl | hp
      · simp
      · have := pcm16Pairs_mem rest p hp
        exact ⟨List.mem_cons_of_mem _ (List.mem_cons_of_mem _ this.1),
          List.mem_cons_of_mem _ (List.mem_cons_of_mem _ this.2)⟩

theorem pcm16Pairs_get :
    ∀ (bytes : List Nat) (i : Nat), 2 * i + 1 < bytes.length →
      (pcm16Pairs bytes).get? i = some (bytes.getD (2 * i) 0, bytes.getD (2 * i + 1) 0)
  | [], i, h => by simp at h
  | [_], i, h => by
      simp only [List.length_cons, List.length_nil] at h
      omega
  | b0 :: b1 :: rest, 0, h => by simp [pcm16Pairs]
  | b0 :: b1 :: rest, i + 1, h => by
      have h2 : 2 * i + 1 < rest.length := by
        simp only [List.length_cons] at h; omega
      have ih := pcm16Pairs_get rest i h2
      simp [pcm16Pairs, List.get?_cons_succ, List.getD_cons_succ,
        show 2 * (i + 1) = 2 * i + 1 + 1 by ring,
        show 2 * (i + 1) + 1 = 2 * i + 1 + 1 + 1 by ring] at ih ⊢
      exact ih

theorem int16OfLE_bounds (b0 b1 : Nat) (h0 : b0 < 256) (h1 : b1 < 256) :
    -32768 ≤ int16OfLE b0 b1 ∧ int16OfLE b0 b1 ≤ 32767 := by
  unfold int16OfLE
  dsimp only
  split <;> omega

/-- C9: decoding little-endian 16-bit PCM bytes yields one normalized
sample per byte pair: the sample count is half the byte count, the i-th
sample is the i-th little-endian int16 value divided by 32768, every
sample lies in the interval from -1 inclusive to 1 exclusive, and a
chunk of silence decodes to all-zero samples. -/
theorem pcm16_decode_normalized (bytes : List Nat)
    (hb : ∀ b ∈ bytes, b < 256) (he : bytes.length % 2 = 0) :
    ((decodePCM16 bytes).length = bytes.length / 2) ∧
    (∀ i : Nat, 2 * i + 1 < bytes.length →
      (decodePCM16 bytes).get? i =
        some ((int16OfLE (bytes.getD (2 * i) 0) (bytes.getD (2 * i + 1) 0) : ℚ) / 32768)) ∧
    (∀ q ∈ decodePCM16 bytes, -1 ≤ q ∧ q < 1) ∧
    ((∀ b ∈ bytes, b = 0) → ∀ q ∈ decodePCM16 bytes, q = 0) := by
  refine ⟨?_, ?_, ?_, ?_⟩
  · simp [decodePCM16, pcm16Pairs_length]
  · intro i hi
    simp only [decodePCM16, List.get?_map, pcm16Pairs_get bytes i hi, Option.map_some']
  · intro q hq
    rcases List.mem_map.mp hq with ⟨p, hp, rfl⟩
    have hmem := pcm16Pairs_mem bytes p hp
    have hbd := int16OfLE_bounds p.1 p.2 (hb _ hmem.1) (hb _ hmem.2)
    have h32 : (0 : ℚ) < 32768 := by norm_num
    constructor
    · rw [le_div_iff h32]
      have : (-32768 : ℚ) ≤ (int16OfLE p.1 p.2 : ℚ) := by exact_mod_cast hbd.1
      linarith
    · rw [div_lt_one h32]
      have : (int16OfLE p.1 p.2 : ℚ) ≤ 32767 := by exact_mod_cast hbd.2
      linarith
  · intro hz q hq
    rcases List.mem_map.mp hq with ⟨p, hp, rfl⟩
    have hmem := pcm16Pairs_mem bytes p hp
    have h1 : p.1 = 0 := hz _ hmem.1
    have h2 : p.2 = 0 := hz _ hmem.2
    rw [h1, h2]
    norm_num [int16OfLE]

/-- C9 witness: four bytes of silence decode to two samples, both zero. -/
theorem pcm16_decode_witness :
    (∀ b ∈ ([0, 0, 0, 0] : List Nat), b < 256) ∧
    ([0, 0, 0, 0] : List Nat).length % 2 = 0 ∧
    (decodePCM16 [0, 0, 0, 0]).length = 2 ∧
    (∀ q ∈ decodePCM16 [0, 0, 0, 0], q = 0) := by
  have h := pcm16_decode_normalized [0, 0, 0, 0] (by decide) (by decide)
  exact ⟨by decide, by decide, h.1, h.2.2.2 (by decide)⟩

end GeminiExplorer
